import Mathlib

/-!
# Verification of the zenoh Request codec and unicast receive pipeline

This development embeds, in Lean, the wire codec for the network-layer
`Request` message (`src/commons/zenoh-codec/src/network/request.rs`) and
the unicast transport receive path
(`src/io/zenoh-transport/src/unicast/rx.rs`) of the repository, and proves
the round-trip, forward-compatibility, sequencing and teardown properties
stated in the specification.

Bytes are modelled as natural numbers (every encoder emits values `< 256`);
readers are state-passing functions `List Nat → Option (α × List Nat)`.
Subsidiary pieces that the repository uses but whose code is not part of
the analysed sources (the primitive varint codec, the extension skipping
helper, the sequence tracker and the defragmenter) are modelled from the
specification text; each such definition is marked in its doc comment.
-/

namespace Zenoh

/-- A wire buffer: a list of byte values. -/
abbrev Bytes := List Nat

/-! ## Primitive codec (varint, byte arrays)

Modelled from the spec, §4.B: the primitive codec is not among the
analysed source files. -/

/-- Structurally fuelled varint encoding; any fuel `≥ n` produces the
encoding of `n` (each step divides by 128). -/
def varintEncodeAux : Nat → Nat → List Nat
  | 0, n => [n]
  | fuel + 1, n => if n < 128 then [n] else (n % 128 + 128) :: varintEncodeAux fuel (n / 128)

/-- Modelled from the spec: variable length integer, unsigned,
little-endian, 7 bits per byte, continuation bit in the MSB. -/
def varintEncode (n : Nat) : List Nat := varintEncodeAux n n

theorem varintEncodeAux_congr :
    ∀ n f1 f2, n ≤ f1 → n ≤ f2 → varintEncodeAux f1 n = varintEncodeAux f2 n := by
  intro n
  induction n using Nat.strong_induction_on with
  | _ n ih =>
    intro f1 f2 h1 h2
    by_cases hn : n < 128
    · cases f1 <;> cases f2 <;> simp [varintEncodeAux, hn]
    · obtain ⟨g1, rfl⟩ : ∃ g, f1 = g + 1 := ⟨f1 - 1, by omega⟩
      obtain ⟨g2, rfl⟩ : ∃ g, f2 = g + 1 := ⟨f2 - 1, by omega⟩
      have hdiv : n / 128 < n := Nat.div_lt_self (by omega) (by omega)
      simp only [varintEncodeAux, if_neg hn]
      rw [ih (n / 128) hdiv g1 g2 (by omega) (by omega)]

/-- The defining recursion of the varint encoder. -/
theorem varintEncode_eq (n : Nat) :
    varintEncode n = if n < 128 then [n] else (n % 128 + 128) :: varintEncode (n / 128) := by
  by_cases hn : n < 128
  · cases n <;> simp [varintEncode, varintEncodeAux, hn]
  · obtain ⟨m, rfl⟩ : ∃ m, n = m + 1 := ⟨n - 1, by omega⟩
    have hdiv : (m + 1) / 128 < m + 1 := Nat.div_lt_self (by omega) (by omega)
    rw [varintEncode, varintEncode, varintEncodeAux, if_neg hn,
      varintEncodeAux_congr ((m + 1) / 128) m ((m + 1) / 128) (by omega) le_rfl, if_neg hn]

/-- Fuel-bounded varint decoding: at most `fuel` bytes are consumed. -/
def varintDecodeAux : Nat → Bytes → Option (Nat × Bytes)
  | 0, _ => none
  | _ + 1, [] => none
  | fuel + 1, b :: rest =>
    if b < 128 then some (b, rest)
    else
      match varintDecodeAux fuel rest with
      | some (v, r) => some ((b - 128) + 128 * v, r)
      | none => none

/-- Modelled from the spec: varint decoder, max 10 bytes, failing when the
decoded value would overflow 64 bits. -/
def varintDecode (bs : Bytes) : Option (Nat × Bytes) :=
  match varintDecodeAux 10 bs with
  | some (v, r) => if v < 2 ^ 64 then some (v, r) else none
  | none => none

/-- Modelled from the spec: byte array = varint length prefix, then raw bytes. -/
def zbufWrite (bs : Bytes) : Bytes :=
  varintEncode bs.length ++ bs

/-- Modelled from the spec: byte array decoder; fails when the announced
length exceeds the remaining buffer. -/
def zbufRead (bs : Bytes) : Option (Bytes × Bytes) :=
  match varintDecode bs with
  | some (len, r) => if len ≤ r.length then some (r.take len, r.drop len) else none
  | none => none

theorem varintEncode_ne_nil (n : Nat) : varintEncode n ≠ [] := by
  rw [varintEncode_eq]
  split <;> simp

theorem varintEncode_length_le (k : Nat) :
    ∀ n, n < 128 ^ (k + 1) → (varintEncode n).length ≤ k + 1 := by
  induction k with
  | zero =>
    intro n h
    rw [varintEncode_eq]
    have hn : n < 128 := by simpa using h
    simp [hn]
  | succ k ih =>
    intro n h
    rw [varintEncode_eq]
    split
    · simp
    · simp only [List.length_cons]
      have hdiv : n / 128 < 128 ^ (k + 1) := by
        rw [Nat.div_lt_iff_lt_mul (by norm_num)]
        calc n < 128 ^ (k + 2) := h
        _ = 128 ^ (k + 1) * 128 := by ring
      have := ih (n / 128) hdiv
      omega

theorem varintEncode_length_le_ten (n : Nat) (h : n < 2 ^ 64) :
    (varintEncode n).length ≤ 10 :=
  varintEncode_length_le 9 n (lt_of_lt_of_le h (by norm_num))

theorem varintDecodeAux_encode (n : Nat) :
    ∀ fuel rest, (varintEncode n).length ≤ fuel →
      varintDecodeAux fuel (varintEncode n ++ rest) = some (n, rest) := by
  induction n using Nat.strong_induction_on with
  | _ n ih =>
    intro fuel rest hlen
    rw [varintEncode_eq] at hlen ⊢
    by_cases h : n < 128
    · simp only [if_pos h] at hlen ⊢
      simp only [List.length_cons, List.length_nil] at hlen
      obtain ⟨f, rfl⟩ : ∃ f, fuel = f + 1 := ⟨fuel - 1, by omega⟩
      simp [varintDecodeAux, h]
    · simp only [if_neg h] at hlen ⊢
      simp only [List.length_cons] at hlen
      obtain ⟨f, rfl⟩ : ∃ f, fuel = f + 1 := ⟨fuel - 1, by omega⟩
      have hrec := ih (n / 128) (Nat.div_lt_self (by omega) (by omega)) f rest (by omega)
      simp only [List.cons_append, varintDecodeAux, if_neg (by omega : ¬ n % 128 + 128 < 128),
        List.append_eq, hrec]
      have hval : n % 128 + 128 - 128 + 128 * (n / 128) = n := by omega
      rw [hval]

theorem varintDecode_encode (n : Nat) (h : n < 2 ^ 64) (rest : Bytes) :
    varintDecode (varintEncode n ++ rest) = some (n, rest) := by
  rw [varintDecode, varintDecodeAux_encode n 10 rest (varintEncode_length_le_ten n h)]
  simp only [if_pos h]

theorem zbufRead_write (bs rest : Bytes) (h : bs.length < 2 ^ 64) :
    zbufRead (zbufWrite bs ++ rest) = some (bs, rest) := by
  rw [zbufWrite, zbufRead, List.append_assoc, varintDecode_encode bs.length h (bs ++ rest)]
  simp only [List.length_append, if_pos (by omega : bs.length ≤ bs.length + rest.length)]
  rw [List.take_left, List.drop_left]

/-! ## Byte-level helpers

The header byte packs a 5-bit message id in the low bits and single-bit
flags in the high bits; an extension header packs a 5-bit extension id, a
2-bit ENC field (bits 5–6) and a more-follows bit (bit 7).  The flag
values occupy disjoint bits, so the OR of the Rust source is addition
here. -/

/-- Bit `k` of the byte `h` (`imsg::has_flag(h, 1 << k)`). -/
def hasBit (h k : Nat) : Bool := h / 2 ^ k % 2 = 1

/-- Low five bits of a header byte: the message id (`imsg::mid`). -/
def midOf (h : Nat) : Nat := h % 32

/-- Modelled from the spec: `iext` helpers are not among the analysed
sources; the extension discriminator is the low seven bits of the
extension header (ENC and id together), as the typed extension id
constants bundle their ENC bits. -/
def eidOf (h : Nat) : Nat := h % 128

/-- The 2-bit ENC field of an extension header: 0 = Unit, 1 = Z64,
2 = ZBuf, 3 = reserved. -/
def encOf (h : Nat) : Nat := h / 32 % 4

/-- Assemble an extension header byte from its 7-bit discriminator and the
more-follows bit. -/
def extHeader (e : Nat) (more : Bool) : Nat := e + (if more then 128 else 0)

/-- Message id of `Request` (`id::REQUEST`); a 5-bit constant.  Modelled
from the spec: the numeric id table is not among the analysed sources. -/
def msgid.REQUEST : Nat := 28

/-- `flag::Z` of the Request header: extensions follow (bit 7). -/
def flag.Z : Nat := 128
/-- `flag::M` of the Request header: mapping is Sender (bit 6). -/
def flag.M : Nat := 64
/-- `flag::N` of the Request header: the wire expression has a suffix (bit 5). -/
def flag.N : Nat := 32

/-! ## Data model of the Request message -/

/-- `Mapping` of a wire expression key (`zenoh_protocol::network::Mapping`). -/
inductive Mapping where
  | sender
  | receiver
deriving DecidableEq, Repr

/-- Modelled from the spec: the default mapping is Receiver (a Request
with `mapping = Receiver` is encoded with `M = 0`). -/
def Mapping.dflt : Mapping := .receiver

/-- A wire expression: an integer key id and an optional suffix, carried
as raw bytes (the decoder preserves bytes exactly). -/
structure WireExpr where
  scope : Nat
  suffix : Bytes
deriving DecidableEq, Repr

/-- The wire expression has a suffix iff the suffix is non-empty. -/
def WireExpr.hasSfx (w : WireExpr) : Bool := w.suffix ≠ []

/-- Modelled from the spec: the QoS extension is a thin Z64 wrapper; its
domain value is the raw 64-bit body. -/
abbrev QoSType := Nat

/-- Modelled from the spec: the default QoS value (absence == default;
the numeric choice is immaterial to the properties proved here). -/
def QoSType.dflt : QoSType := 0

/-- Modelled from the spec: a timestamp is a 64-bit time and an id of raw
bytes, carried in a ZBuf extension body. -/
structure TimestampType where
  time : Nat
  tsid : Bytes
deriving DecidableEq, Repr

/-- Modelled from the spec: the Destination extension domain.  The
decoder in the analysed source returns `Subscribers` for a present
extension and the default for an absent one, so the default is the
non-Subscribers variant. -/
inductive DestinationType where
  | subscribers
  | queryables
deriving DecidableEq, Repr

/-- Default destination: the non-Subscribers variant (see above). -/
def DestinationType.dflt : DestinationType := .queryables

/-- `ext::TargetType` of a Request.  The `complete` variant corresponds
to the cfg-gated `Complete(n)` of the source (feature `complete_n`). -/
inductive TargetType where
  | bestMatching
  | all
  | allComplete
  | complete (n : Nat)
deriving DecidableEq, Repr

/-- Default target: BestMatching. -/
def TargetType.dflt : TargetType := .bestMatching

/-- Value encoding of `TargetType` (the `match` of the source encoder,
lines 65–71 of request.rs). -/
def TargetType.toValue : TargetType → Nat
  | .bestMatching => 0
  | .all => 1
  | .allComplete => 2
  | .complete n => 3 + n

/-- Value decoding of `TargetType` (the `match` of the source decoder,
lines 85–92 of request.rs); `completeN` models the `complete_n`
feature: with it, any value `≥ 3` yields `Complete(v - 3)`; without it,
values `≥ 3` fail. -/
def TargetType.ofValue (completeN : Bool) : Nat → Option TargetType
  | 0 => some .bestMatching
  | 1 => some .all
  | 2 => some .allComplete
  | v => if completeN then some (.complete (v - 3)) else none

/-- The `Request` network message. `payload` is the RequestBody, modelled
from the spec as an opaque byte sequence (its codec is external to the
analysed sources and is framed here as a length-prefixed byte array). -/
structure Request where
  id : Nat
  wire_expr : WireExpr
  mapping : Mapping
  payload : Bytes
  ext_qos : QoSType
  ext_tstamp : Option TimestampType
  ext_dst : DestinationType
  ext_target : TargetType
deriving DecidableEq, Repr

/-! ## Typed extension encoders

Modelled from the spec §4.C: each typed extension picks one ENC and one
id.  The four Request extension discriminators (ENC bits merged with the
5-bit id, all distinct): QoS = Z64 id 1, Timestamp = ZBuf id 2,
Destination = Unit id 3, Target = Z64 id 4. -/

def extid.QoS : Nat := 32 + 1
def extid.Timestamp : Nat := 64 + 2
def extid.Destination : Nat := 3
def extid.Target : Nat := 32 + 4

/-- Encode the QoS extension (Z64 body). -/
def writeExtQoS (v : QoSType) (more : Bool) : Bytes :=
  extHeader extid.QoS more :: varintEncode v

/-- Encode the Timestamp extension (ZBuf body: varint time then id bytes). -/
def writeExtTstamp (t : TimestampType) (more : Bool) : Bytes :=
  extHeader extid.Timestamp more :: zbufWrite (varintEncode t.time ++ t.tsid)

/-- Encode the Destination extension (Unit body: header byte only). -/
def writeExtDst (more : Bool) : Bytes :=
  [extHeader extid.Destination more]

/-- Encode the Target extension (Z64 body holding `toValue`). -/
def writeExtTarget (t : TargetType) (more : Bool) : Bytes :=
  extHeader extid.Target more :: varintEncode t.toValue

/-! ## The Request encoder (request.rs, lines 97–148) -/

/-- Number of non-default extensions of a Request (`n_exts`, lines
106–109 of request.rs). -/
def Request.n_exts (x : Request) : Nat :=
  (if x.ext_qos ≠ QoSType.dflt then 1 else 0)
  + (if x.ext_tstamp.isSome then 1 else 0)
  + (if x.ext_dst ≠ DestinationType.dflt then 1 else 0)
  + (if x.ext_target ≠ TargetType.dflt then 1 else 0)

/-- The header byte composed by the encoder (lines 104–118 of
request.rs): the message id OR flags Z, M, N; the flags occupy disjoint
bits so the OR is addition. -/
def Request.headerByte (x : Request) : Nat :=
  msgid.REQUEST
  + (if x.n_exts ≠ 0 then flag.Z else 0)
  + (if x.mapping ≠ Mapping.dflt then flag.M else 0)
  + (if x.wire_expr.hasSfx then flag.N else 0)

/-- Encode a wire expression: varint key, then the length-prefixed suffix
iff present (the enclosing N flag tells the decoder).  Modelled from the
spec §4.B: the WireExpr codec is not among the analysed sources. -/
def writeWireExpr (w : WireExpr) : Bytes :=
  varintEncode w.scope ++ (if w.hasSfx then zbufWrite w.suffix else [])

/-- The Request encoder (`WCodec<&Request> for Zenoh080::write`, lines
103–147 of request.rs): header byte, varint id, wire expression, the
non-default extensions in canonical order with the decrement-counter
"more" pattern of the source, then the payload. -/
def writeRequest (x : Request) : Bytes :=
  let n0 := x.n_exts
  let e1n1 : Bytes × Nat :=
    if x.ext_qos ≠ QoSType.dflt then (writeExtQoS x.ext_qos (n0 - 1 ≠ 0), n0 - 1)
    else ([], n0)
  let e2n2 : Bytes × Nat :=
    match x.ext_tstamp with
    | some ts => (writeExtTstamp ts (e1n1.2 - 1 ≠ 0), e1n1.2 - 1)
    | none => ([], e1n1.2)
  let e3n3 : Bytes × Nat :=
    if x.ext_dst ≠ DestinationType.dflt then (writeExtDst (e2n2.2 - 1 ≠ 0), e2n2.2 - 1)
    else ([], e2n2.2)
  let e4 : Bytes :=
    if x.ext_target ≠ TargetType.dflt then writeExtTarget x.ext_target (e3n3.2 - 1 ≠ 0)
    else []
  x.headerByte :: (varintEncode x.id ++ writeWireExpr x.wire_expr
    ++ e1n1.1 ++ e2n2.1 ++ e3n3.1 ++ e4 ++ zbufWrite x.payload)

/-! ## The Request decoder (request.rs, lines 163–235) -/

/-- Decode a wire expression; `hasSfx` is the N flag of the enclosing
message, threaded by the conditional codec.  Modelled from the spec
§4.B. -/
def readWireExpr (hasSfx : Bool) (bs : Bytes) : Option (WireExpr × Bytes) :=
  match varintDecode bs with
  | some (scope, r) =>
    if hasSfx then
      match zbufRead r with
      | some (sfx, r2) => some (⟨scope, sfx⟩, r2)
      | none => none
    else some (⟨scope, []⟩, r)
  | none => none

/-- Decode the Timestamp extension body (ZBuf: varint time, then id
bytes). -/
def readTimestampBody (bs : Bytes) : Option (TimestampType × Bytes) :=
  match zbufRead bs with
  | some (content, r) =>
    match varintDecode content with
    | some (time, tsid) => some (⟨time, tsid⟩, r)
    | none => none
  | none => none

/-- The running values of the four extension fields during the decoder's
extension loop (lines 185–188 of request.rs). -/
structure ExtState where
  ext_qos : QoSType
  ext_tstamp : Option TimestampType
  ext_dst : DestinationType
  ext_target : TargetType
deriving DecidableEq, Repr

/-- Initial extension state: every field at its default (lines 185–188 of
request.rs). -/
def ExtState.init : ExtState :=
  ⟨QoSType.dflt, none, DestinationType.dflt, TargetType.dflt⟩

/-- The decoder's extension loop (lines 190–219 of request.rs): read an
extension header, dispatch on the discriminator — a known id updates its
field, an unknown one is skipped per its ENC (`extension::skip`,
modelled from the spec §4.C), reserved ENC fails — and continue while
the more bit is set.  `fuel` bounds the number of iterations; every
iteration consumes at least the header byte, so the input length is
always sufficient fuel. -/
def readExts (completeN : Bool) : Nat → ExtState → Bytes → Option (ExtState × Bytes)
  | 0, _, _ => none
  | _ + 1, _, [] => none
  | fuel + 1, st, extByte :: rest =>
    let more := hasBit extByte 7
    let cont : ExtState → Bytes → Option (ExtState × Bytes) := fun st r =>
      if more then readExts completeN fuel st r else some (st, r)
    if eidOf extByte = extid.QoS then
      match varintDecode rest with
      | some (v, r) => cont { st with ext_qos := v } r
      | none => none
    else if eidOf extByte = extid.Timestamp then
      match readTimestampBody rest with
      | some (t, r) => cont { st with ext_tstamp := some t } r
      | none => none
    else if eidOf extByte = extid.Destination then
      cont { st with ext_dst := .subscribers } rest
    else if eidOf extByte = extid.Target then
      match varintDecode rest with
      | some (v, r) =>
        match TargetType.ofValue completeN v with
        | some t => cont { st with ext_target := t } r
        | none => none
      | none => none
    else if encOf extByte = 0 then cont st rest
    else if encOf extByte = 1 then
      match varintDecode rest with
      | some (_, r) => cont st r
      | none => none
    else if encOf extByte = 2 then
      match zbufRead rest with
      | some (_, r) => cont st r
      | none => none
    else none

/-- The Request decoder given an already-read header byte
(`RCodec<Request> for Zenoh080Header::read`, lines 169–234 of
request.rs). -/
def readRequestFrom (completeN : Bool) (header : Nat) (bs : Bytes) :
    Option (Request × Bytes) :=
  if midOf header ≠ msgid.REQUEST then none
  else
    match varintDecode bs with
    | some (rid, r1) =>
      match readWireExpr (hasBit header 5) r1 with
      | some (we, r2) =>
        let mapping := if hasBit header 6 then Mapping.sender else Mapping.receiver
        let step :=
          if hasBit header 7 then readExts completeN r2.length ExtState.init r2
          else some (ExtState.init, r2)
        match step with
        | some (st, r3) =>
          match zbufRead r3 with
          | some (payload, r4) =>
            some (⟨rid, we, mapping, payload,
                   st.ext_qos, st.ext_tstamp, st.ext_dst, st.ext_target⟩, r4)
          | none => none
        | none => none
      | none => none
    | none => none

/-- The Request decoder (`RCodec<Request> for Zenoh080::read`, lines
156–160 of request.rs): read the header byte, then the rest. -/
def readRequest (completeN : Bool) (bs : Bytes) : Option (Request × Bytes) :=
  match bs with
  | [] => none
  | h :: rest => readRequestFrom completeN h rest

/-! ## Extension chains as lists

To reason about the decoder's extension loop we describe an encoded
extension chain by the list of extension units it carries.  The encoder
of the source emits the known units in canonical order; a chain may also
carry unknown units (any discriminator outside the four known ones),
which is how forward compatibility is exercised. -/

/-- One extension unit of a Request extension chain. -/
inductive ExtWrite where
  | qos (v : QoSType)
  | tstamp (t : TimestampType)
  | dst
  | target (t : TargetType)
  | unknownUnit (e : Nat)
  | unknownZ64 (e : Nat) (v : Nat)
  | unknownZBuf (e : Nat) (b : Bytes)
  | unknownReserved (e : Nat)
deriving DecidableEq, Repr

/-- Encode one extension unit with the given more-follows bit. -/
def writeExtOne : ExtWrite → Bool → Bytes
  | .qos v, more => writeExtQoS v more
  | .tstamp t, more => writeExtTstamp t more
  | .dst, more => writeExtDst more
  | .target t, more => writeExtTarget t more
  | .unknownUnit e, more => [extHeader e more]
  | .unknownZ64 e v, more => extHeader e more :: varintEncode v
  | .unknownZBuf e b, more => extHeader e more :: zbufWrite b
  | .unknownReserved e, more => [extHeader e more]

/-- Encode an extension chain: each unit's more bit is set iff another
unit follows. -/
def writeExtChain : List ExtWrite → Bytes
  | [] => []
  | e :: es => writeExtOne e (!es.isEmpty) ++ writeExtChain es

/-- Effect of one decoded extension unit on the decoder's running state:
a known unit overwrites its field (the Destination decoder yields
`Subscribers` unconditionally, line 52 of request.rs), an unknown one
leaves the state unchanged. -/
def applyExt (st : ExtState) : ExtWrite → ExtState
  | .qos v => { st with ext_qos := v }
  | .tstamp t => { st with ext_tstamp := some t }
  | .dst => { st with ext_dst := .subscribers }
  | .target t => { st with ext_target := t }
  | .unknownUnit _ => st
  | .unknownZ64 _ _ => st
  | .unknownZBuf _ _ => st
  | .unknownReserved _ => st

/-- The discriminator is none of the four known Request extension ids. -/
def unknownEid (e : Nat) : Bool :=
  e ≠ extid.QoS && e ≠ extid.Timestamp && e ≠ extid.Destination && e ≠ extid.Target

/-- Well-formedness of one extension unit: 64-bit bodies in range, and
unknown discriminators 7-bit, outside the known set, with the ENC bits
they claim (a reserved unit is never well-formed: the encoder must not
emit reserved). -/
def ExtWrite.valid (completeN : Bool) : ExtWrite → Bool
  | .qos v => v < 2 ^ 64
  | .tstamp t => t.time < 2 ^ 64 && (varintEncode t.time).length + t.tsid.length < 2 ^ 64
  | .dst => true
  | .target t => t.toValue < 2 ^ 64 && (TargetType.ofValue completeN t.toValue == some t)
  | .unknownUnit e => e < 128 && encOf e = 0 && unknownEid e
  | .unknownZ64 e v => e < 128 && encOf e = 1 && unknownEid e && v < 2 ^ 64
  | .unknownZBuf e b => e < 128 && encOf e = 2 && unknownEid e && b.length < 2 ^ 64
  | .unknownReserved _ => false

theorem hasBit7_extHeader (e : Nat) (he : e < 128) (more : Bool) :
    hasBit (extHeader e more) 7 = more := by
  cases more <;> simp [extHeader, hasBit] <;> omega

theorem eidOf_extHeader (e : Nat) (he : e < 128) (more : Bool) :
    eidOf (extHeader e more) = e := by
  cases more <;> simp [extHeader, eidOf] <;> omega

theorem encOf_extHeader (e : Nat) (he : e < 128) (more : Bool) :
    encOf (extHeader e more) = encOf e := by
  cases more <;> simp [extHeader, encOf] <;> omega

/-- Decoding one well-formed extension unit from the head of the buffer:
the dispatch selects the unit's branch, consumes exactly its bytes,
applies its effect, and continues iff the more bit was set. -/
theorem readExts_step (completeN : Bool) (e : ExtWrite) (he : e.valid completeN = true)
    (more : Bool) (st : ExtState) (tail : Bytes) (fuel : Nat) :
    readExts completeN (fuel + 1) st (writeExtOne e more ++ tail) =
      (if more then readExts completeN fuel (applyExt st e) tail
       else some (applyExt st e, tail)) := by
  cases e with
  | qos v =>
    simp only [ExtWrite.valid, decide_eq_true_eq] at he
    have h128 : extid.QoS < 128 := by decide
    simp [writeExtOne, writeExtQoS, readExts, hasBit7_extHeader _ h128,
      eidOf_extHeader _ h128, varintDecode_encode v he tail, applyExt]
  | tstamp t =>
    simp only [ExtWrite.valid, Bool.and_eq_true, decide_eq_true_eq] at he
    have h128 : extid.Timestamp < 128 := by decide
    have hread : readTimestampBody (zbufWrite (varintEncode t.time ++ t.tsid) ++ tail)
        = some (t, tail) := by
      simp only [readTimestampBody,
        zbufRead_write (varintEncode t.time ++ t.tsid) tail (by simpa using he.2),
        varintDecode_encode t.time he.1 t.tsid]
    simp [writeExtOne, writeExtTstamp, readExts, hasBit7_extHeader _ h128,
      eidOf_extHeader _ h128, hread, applyExt,
      (by decide : ¬ (extid.Timestamp = extid.QoS))]
  | dst =>
    have h128 : extid.Destination < 128 := by decide
    simp [writeExtOne, writeExtDst, readExts, hasBit7_extHeader _ h128,
      eidOf_extHeader _ h128, applyExt,
      (by decide : ¬ (extid.Destination = extid.QoS)),
      (by decide : ¬ (extid.Destination = extid.Timestamp))]
  | target t =>
    simp only [ExtWrite.valid, Bool.and_eq_true, decide_eq_true_eq, beq_iff_eq] at he
    have h128 : extid.Target < 128 := by decide
    simp [writeExtOne, writeExtTarget, readExts, hasBit7_extHeader _ h128,
      eidOf_extHeader _ h128, varintDecode_encode t.toValue he.1 tail, he.2, applyExt,
      (by decide : ¬ (extid.Target = extid.QoS)),
      (by decide : ¬ (extid.Target = extid.Timestamp)),
      (by decide : ¬ (extid.Target = extid.Destination))]
  | unknownUnit e =>
    simp only [ExtWrite.valid, Bool.and_eq_true, decide_eq_true_eq, unknownEid,
      bne_iff_ne, ne_eq, and_assoc] at he
    obtain ⟨h128, henc, h1, h2, h3, h4⟩ := he
    simp [writeExtOne, readExts, hasBit7_extHeader _ h128, eidOf_extHeader _ h128,
      encOf_extHeader _ h128, h1, h2, h3, h4, henc, applyExt]
  | unknownZ64 e v =>
    simp only [ExtWrite.valid, Bool.and_eq_true, decide_eq_true_eq, unknownEid,
      bne_iff_ne, ne_eq, and_assoc] at he
    obtain ⟨h128, henc, h1, h2, h3, h4, hv⟩ := he
    simp [writeExtOne, readExts, hasBit7_extHeader _ h128, eidOf_extHeader _ h128,
      encOf_extHeader _ h128, h1, h2, h3, h4, henc, varintDecode_encode v hv tail, applyExt]
  | unknownZBuf e b =>
    simp only [ExtWrite.valid, Bool.and_eq_true, decide_eq_true_eq, unknownEid,
      bne_iff_ne, ne_eq, and_assoc] at he
    obtain ⟨h128, henc, h1, h2, h3, h4, hb⟩ := he
    simp [writeExtOne, readExts, hasBit7_extHeader _ h128, eidOf_extHeader _ h128,
      encOf_extHeader _ h128, h1, h2, h3, h4, henc, zbufRead_write b tail hb, applyExt]
  | unknownReserved e => simp [ExtWrite.valid] at he

/-- Decoding an encoded extension chain: for any well-formed chain — the
known units in any order, duplicates allowed, unknown units interleaved —
the loop succeeds, consumes exactly the chain's bytes, and the final
state is the left fold of the units' effects (so a duplicated id keeps
the last occurrence). -/
theorem readExts_chain (completeN : Bool) (es : List ExtWrite) (hne : es ≠ [])
    (hv : ∀ e ∈ es, e.valid completeN = true) (st : ExtState) (rest : Bytes)
    (fuel : Nat) (hf : es.length ≤ fuel) :
    readExts completeN fuel st (writeExtChain es ++ rest) =
      some (es.foldl applyExt st, rest) := by
  induction es generalizing st fuel with
  | nil => exact absurd rfl hne
  | cons e es ih =>
    obtain ⟨f, rfl⟩ : ∃ f, fuel = f + 1 := ⟨fuel - 1, by simp at hf; omega⟩
    rw [writeExtChain, List.append_assoc,
      readExts_step completeN e (hv e (by simp)) (!es.isEmpty) st _ f]
    cases es with
    | nil => simp [writeExtChain]
    | cons e2 es2 =>
      simp only [List.isEmpty_cons, Bool.not_false, if_true, List.foldl_cons]
      exact ih (by simp) (fun x hx => hv x (List.mem_cons_of_mem _ hx)) (applyExt st e) f
        (by simp only [List.length_cons] at hf ⊢; omega)

/-- The canonical extension list emitted by the Request encoder: the
non-default extensions in canonical order QoS, Timestamp, Destination,
Target. -/
def Request.extList (x : Request) : List ExtWrite :=
  (if x.ext_qos ≠ QoSType.dflt then [ExtWrite.qos x.ext_qos] else [])
  ++ (match x.ext_tstamp with
      | some t => [ExtWrite.tstamp t]
      | none => [])
  ++ (if x.ext_dst ≠ DestinationType.dflt then [ExtWrite.dst] else [])
  ++ (if x.ext_target ≠ TargetType.dflt then [ExtWrite.target x.ext_target] else [])

/-- Header byte for a Request whose extension section is the chain `es`:
Z is set iff the chain is non-empty. -/
def chainHeader (x : Request) (es : List ExtWrite) : Nat :=
  msgid.REQUEST
  + (if es ≠ [] then flag.Z else 0)
  + (if x.mapping ≠ Mapping.dflt then flag.M else 0)
  + (if x.wire_expr.hasSfx then flag.N else 0)

/-- Encoding of a Request with an explicit extension chain `es` in place
of the canonical extension section (and the Z flag reflecting `es`). -/
def writeRequestChain (x : Request) (es : List ExtWrite) : Bytes :=
  chainHeader x es
  :: (varintEncode x.id ++ writeWireExpr x.wire_expr ++ writeExtChain es
      ++ zbufWrite x.payload)

/-- The source encoder is the chain encoder applied to the canonical
extension list: the decrement-counter "more" pattern of lines 126–141 of
request.rs marks exactly the non-last units. -/
theorem writeRequest_eq_chain (x : Request) :
    writeRequest x = writeRequestChain x x.extList := by
  unfold writeRequest writeRequestChain chainHeader Request.extList Request.headerByte
    Request.n_exts
  by_cases h1 : x.ext_qos ≠ QoSType.dflt <;>
    rcases h2 : x.ext_tstamp with _ | ts <;>
    by_cases h3 : x.ext_dst ≠ DestinationType.dflt <;>
    by_cases h4 : x.ext_target ≠ TargetType.dflt <;>
    simp [h1, h2, h3, h4, writeExtChain, writeExtOne]

/-- Well-formedness of a Request: every varint-encoded quantity fits in
64 bits and every raw byte is a byte value. -/
def Request.valid (x : Request) : Bool :=
  x.id < 2 ^ 64 && x.wire_expr.scope < 2 ^ 64 && x.wire_expr.suffix.length < 2 ^ 64
  && x.payload.length < 2 ^ 64 && x.ext_qos < 2 ^ 64 && x.ext_target.toValue < 2 ^ 64
  && (match x.ext_tstamp with
      | some t => t.time < 2 ^ 64
          && (varintEncode t.time).length + t.tsid.length < 2 ^ 64
          && t.tsid.all (fun b => b < 256)
      | none => true)
  && x.payload.all (fun b => b < 256) && x.wire_expr.suffix.all (fun b => b < 256)

/-- Replace the four extension fields of a Request by those of an
extension state. -/
def requestOfParts (x : Request) (st : ExtState) : Request :=
  { x with ext_qos := st.ext_qos, ext_tstamp := st.ext_tstamp,
           ext_dst := st.ext_dst, ext_target := st.ext_target }

theorem chainHeader_bits (x : Request) (es : List ExtWrite) :
    midOf (chainHeader x es) = msgid.REQUEST
    ∧ hasBit (chainHeader x es) 7 = decide (es ≠ [])
    ∧ hasBit (chainHeader x es) 6 = decide (x.mapping ≠ Mapping.dflt)
    ∧ hasBit (chainHeader x es) 5 = x.wire_expr.hasSfx := by
  unfold chainHeader
  have hsfx : (if x.wire_expr.hasSfx then flag.N else 0)
      = if x.wire_expr.hasSfx = true then flag.N else 0 := rfl
  by_cases h1 : es ≠ [] <;> by_cases h2 : x.mapping ≠ Mapping.dflt <;>
    by_cases h3 : x.wire_expr.hasSfx = true <;>
    simp [h1, h2, h3, hasBit, midOf, flag.Z, flag.M, flag.N, msgid.REQUEST]

theorem readWireExpr_write (w : WireExpr) (hscope : w.scope < 2 ^ 64)
    (hlen : w.suffix.length < 2 ^ 64) (rest : Bytes) :
    readWireExpr w.hasSfx (writeWireExpr w ++ rest) = some (w, rest) := by
  unfold readWireExpr writeWireExpr
  by_cases h : w.hasSfx = true
  · simp only [h, if_true, List.append_assoc, varintDecode_encode w.scope hscope,
      zbufRead_write w.suffix rest hlen]
  · simp only [h, Bool.false_eq_true, if_false, List.append_nil,
      varintDecode_encode w.scope hscope]
    obtain ⟨s, sfx⟩ := w
    simp only [WireExpr.hasSfx] at h
    simp at h
    simp [h]

theorem writeExtOne_length_pos (e : ExtWrite) (more : Bool) :
    1 ≤ (writeExtOne e more).length := by
  cases e <;> simp [writeExtOne, writeExtQoS, writeExtTstamp, writeExtDst, writeExtTarget]

theorem writeExtChain_length (es : List ExtWrite) :
    es.length ≤ (writeExtChain es).length := by
  induction es with
  | nil => simp [writeExtChain]
  | cons e es ih =>
    rw [writeExtChain]
    have := writeExtOne_length_pos e (!es.isEmpty)
    simp only [List.length_append, List.length_cons]
    omega

theorem zbufWrite_length_pos (bs : Bytes) : 1 ≤ (zbufWrite bs).length := by
  rw [zbufWrite]
  cases h : varintEncode bs.length with
  | nil => exact absurd h (varintEncode_ne_nil bs.length)
  | cons a l =>
    simp only [h, List.cons_append, List.length_cons]
    omega

/-- Decoding an encoding with an explicit well-formed chain: the decoder
recovers the fixed fields from the header and body, runs the extension
loop over the chain, and returns the Request whose extension fields are
the fold of the chain's effects. -/
theorem readRequest_chainWrite (completeN : Bool) (x : Request) (es : List ExtWrite)
    (hx : x.valid = true) (hes : ∀ e ∈ es, e.valid completeN = true) (rest : Bytes) :
    readRequest completeN (writeRequestChain x es ++ rest) =
      some (requestOfParts x (es.foldl applyExt ExtState.init), rest) := by
  simp only [Request.valid, Bool.and_eq_true, decide_eq_true_eq, and_assoc] at hx
  obtain ⟨hid, hscope, hsfxlen, hplen, hqos, htv, hmore⟩ := hx
  obtain ⟨hmid, hbit7, hbit6, hbit5⟩ := chainHeader_bits x es
  have hmap : (if decide (x.mapping ≠ Mapping.dflt) = true
      then Mapping.sender else Mapping.receiver) = x.mapping := by
    cases x.mapping <;> simp [Mapping.dflt]
  rw [writeRequestChain, List.cons_append, readRequest, readRequestFrom,
    if_neg (by simp [hmid])]
  by_cases hne : es = []
  · subst hne
    have hz : hasBit (chainHeader x []) 7 = false := by rw [hbit7]; simp
    simp only [List.append_assoc, varintDecode_encode x.id hid, hbit5,
      readWireExpr_write x.wire_expr hscope hsfxlen, hbit6, hmap, hz,
      Bool.false_eq_true, if_false, writeExtChain, List.nil_append, List.foldl_nil,
      zbufRead_write x.payload rest hplen, requestOfParts]
  · have hz : hasBit (chainHeader x es) 7 = true := by rw [hbit7]; simp [hne]
    have hfuel : es.length ≤ (writeExtChain es ++ (zbufWrite x.payload ++ rest)).length := by
      have h1 := writeExtChain_length es
      have h2 := zbufWrite_length_pos x.payload
      simp only [List.length_append]
      omega
    simp only [List.append_assoc, varintDecode_encode x.id hid, hbit5,
      readWireExpr_write x.wire_expr hscope hsfxlen, hbit6, hmap, hz, if_true,
      readExts_chain completeN es hne hes ExtState.init (zbufWrite x.payload ++ rest) _ hfuel,
      zbufRead_write x.payload rest hplen, requestOfParts]

theorem ofValue_toValue (t : TargetType) :
    TargetType.ofValue true t.toValue = some t := by
  cases t with
  | complete n =>
    simp only [TargetType.toValue, Nat.add_comm 3 n]
    simp [TargetType.ofValue]
  | _ => rfl

theorem extList_valid (x : Request) (hx : x.valid = true) :
    ∀ e ∈ x.extList, e.valid true = true := by
  simp only [Request.valid, Bool.and_eq_true, decide_eq_true_eq, and_assoc] at hx
  obtain ⟨hid, hscope, hsfxlen, hplen, hqos, htv, hts, hrest⟩ := hx
  intro e he
  simp only [Request.extList, List.mem_append] at he
  rcases he with ((he | he) | he) | he
  · rcases Decidable.em (x.ext_qos ≠ QoSType.dflt) with h | h <;> simp [h] at he
    subst he
    simp only [ExtWrite.valid, decide_eq_true_eq]
    exact hqos
  · rcases hsome : x.ext_tstamp with _ | t <;> simp [hsome] at he
    subst he
    rw [hsome] at hts
    simp at hts
    simp only [ExtWrite.valid, Bool.and_eq_true, decide_eq_true_eq]
    exact ⟨by omega, by omega⟩
  · rcases Decidable.em (x.ext_dst ≠ DestinationType.dflt) with h | h <;> simp [h] at he
    subst he
    simp [ExtWrite.valid]
  · rcases Decidable.em (x.ext_target ≠ TargetType.dflt) with h | h <;> simp [h] at he
    subst he
    simp only [ExtWrite.valid, ofValue_toValue, Bool.and_eq_true, decide_eq_true_eq,
      beq_self_eq_true, and_true]
    omega

theorem requestOfParts_extList (x : Request) :
    requestOfParts x (x.extList.foldl applyExt ExtState.init) = x := by
  obtain ⟨i, w, m, p, q, ts, d, tg⟩ := x
  simp only [Request.extList, requestOfParts, ExtState.init]
  rcases ts with _ | t <;> cases d <;>
    by_cases h1 : q ≠ QoSType.dflt <;>
    by_cases h4 : tg ≠ TargetType.dflt <;>
    simp_all [applyExt, DestinationType.dflt, QoSType.dflt, TargetType.dflt]


/-! ## Header-flag facts for the source encoder -/

theorem headerByte_bits (x : Request) :
    midOf x.headerByte = msgid.REQUEST
    ∧ hasBit x.headerByte 7 = decide (x.n_exts ≠ 0)
    ∧ hasBit x.headerByte 6 = decide (x.mapping ≠ Mapping.dflt)
    ∧ hasBit x.headerByte 5 = x.wire_expr.hasSfx := by
  unfold Request.headerByte
  by_cases h1 : x.n_exts ≠ 0 <;> by_cases h2 : x.mapping ≠ Mapping.dflt <;>
    by_cases h3 : x.wire_expr.hasSfx = true <;>
    simp [h1, h2, h3, hasBit, midOf, flag.Z, flag.M, flag.N, msgid.REQUEST]

theorem n_exts_ne_zero_iff (x : Request) :
    x.n_exts ≠ 0 ↔
      (x.ext_qos ≠ QoSType.dflt ∨ x.ext_tstamp ≠ none
        ∨ x.ext_dst ≠ DestinationType.dflt ∨ x.ext_target ≠ TargetType.dflt) := by
  by_cases h1 : x.ext_qos ≠ QoSType.dflt <;> rcases h2 : x.ext_tstamp with _ | t <;>
    by_cases h3 : x.ext_dst ≠ DestinationType.dflt <;>
    by_cases h4 : x.ext_target ≠ TargetType.dflt <;>
    simp [Request.n_exts, h1, h2, h3, h4]

/-- The specification's minimal Request: id 7, key 42 without suffix,
Receiver mapping, all extensions default, empty payload. -/
def minimalRequest : Request :=
  { id := 7, wire_expr := ⟨42, []⟩, mapping := .receiver, payload := [],
    ext_qos := QoSType.dflt, ext_tstamp := none, ext_dst := DestinationType.dflt,
    ext_target := TargetType.dflt }

/-- A Request exercising every field away from its default. -/
def sampleRequest : Request :=
  { id := 7, wire_expr := ⟨42, [97]⟩, mapping := .sender, payload := [1, 2],
    ext_qos := 5, ext_tstamp := some ⟨300, [9]⟩, ext_dst := .subscribers,
    ext_target := .complete 5 }

/-! ## Claim theorems for the Request codec -/

/-- C1: for every Request value whose fields lie in their valid domains,
decoding the bytes produced by the encoder yields exactly the original
Request and consumes the whole buffer — including the `ext_dst` field,
whose decoder unconditionally returns `Subscribers` for a present
Destination extension (the extension is present exactly when
`ext_dst = Subscribers`, the non-default variant). -/
theorem request_roundtrip (x : Request) (hx : x.valid = true) :
    readRequest true (writeRequest x) = some (x, []) := by
  have h := readRequest_chainWrite true x x.extList hx (extList_valid x hx) []
  rw [List.append_nil] at h
  rw [writeRequest_eq_chain, h, requestOfParts_extList]

/-- Witness for C1: the round-trip theorem applied to a concrete Request
with all four extensions non-default. -/
theorem request_roundtrip_witness :
    sampleRequest.valid = true
      ∧ readRequest true (writeRequest sampleRequest) = some (sampleRequest, []) :=
  ⟨by decide, request_roundtrip sampleRequest (by decide)⟩

/-- C5: the Target extension codec packs `TargetType` as
BestMatching ↦ 0, All ↦ 1, AllComplete ↦ 2, Complete n ↦ 3 + n; the
decoder maps 0, 1, 2 back (under either feature setting), maps every
value ≥ 3 to `Complete (v - 3)` when the `complete_n` feature is
present, and fails on every value ≥ 3 when it is absent. -/
theorem target_value_codec :
    (TargetType.toValue .bestMatching = 0 ∧ TargetType.toValue .all = 1
      ∧ TargetType.toValue .allComplete = 2
      ∧ ∀ n, TargetType.toValue (.complete n) = 3 + n)
    ∧ (∀ c, TargetType.ofValue c 0 = some .bestMatching
        ∧ TargetType.ofValue c 1 = some .all
        ∧ TargetType.ofValue c 2 = some .allComplete)
    ∧ (∀ v, 3 ≤ v → TargetType.ofValue true v = some (.complete (v - 3))
        ∧ TargetType.ofValue false v = none) := by
  refine ⟨⟨rfl, rfl, rfl, fun n => rfl⟩, fun c => ⟨rfl, rfl, rfl⟩, fun v hv => ?_⟩
  obtain ⟨w, rfl⟩ : ∃ w, v = w + 3 := ⟨v - 3, by omega⟩
  constructor <;> simp [TargetType.ofValue]

/-- Witness for C5: value 8 decodes to `Complete 5` with the feature and
fails without it (the spec's scenario 2: Target = Complete(5) has value
byte 3 + 5 = 8). -/
theorem target_value_codec_witness :
    TargetType.ofValue true 8 = some (.complete 5)
      ∧ TargetType.ofValue false 8 = none := by
  have h := target_value_codec.2.2 8 (by decide)
  simpa using h

/-- C6: the Request encoder composes the header byte from the REQUEST
message id and flags Z (set iff some extension is non-default, a present
timestamp counting as non-default), M (set iff the mapping is Sender)
and N (set iff the wire expression has a suffix); in particular the
minimal Request of the specification is encoded with Z = M = N = 0 into
the deterministic four bytes `[28, 7, 42, 0]`. -/
theorem request_header_flags :
    (∀ x : Request,
      (∃ rest, writeRequest x = x.headerByte :: rest)
      ∧ midOf x.headerByte = msgid.REQUEST
      ∧ (hasBit x.headerByte 7 = true ↔
          (x.ext_qos ≠ QoSType.dflt ∨ x.ext_tstamp ≠ none
            ∨ x.ext_dst ≠ DestinationType.dflt ∨ x.ext_target ≠ TargetType.dflt))
      ∧ (hasBit x.headerByte 6 = true ↔ x.mapping = Mapping.sender)
      ∧ (hasBit x.headerByte 5 = true ↔ x.wire_expr.suffix ≠ []))
    ∧ writeRequest minimalRequest = [msgid.REQUEST, 7, 42, 0] := by
  refine ⟨fun x => ?_, by decide⟩
  obtain ⟨hmid, h7, h6, h5⟩ := headerByte_bits x
  refine ⟨⟨_, rfl⟩, hmid, ?_, ?_, ?_⟩
  · rw [h7]
    simp only [decide_eq_true_eq]
    exact n_exts_ne_zero_iff x
  · rw [h6]
    cases x.mapping <;> simp [Mapping.dflt]
  · rw [h5]
    simp [WireExpr.hasSfx]

/-- C7: the decoder's extension loop is permissive about ordering: it
decodes any well-formed chain — known extensions in any order, unknown
units interleaved, duplicates allowed — without failing, consuming
exactly the chain's bytes, and the resulting state is the left fold of
the units' effects, so a duplicated extension id keeps the value of its
last occurrence (last-write-wins). -/
theorem ext_chain_permissive (completeN : Bool) (es : List ExtWrite) (hne : es ≠ [])
    (hv : ∀ e ∈ es, e.valid completeN = true) (st : ExtState) (rest : Bytes)
    (fuel : Nat) (hf : es.length ≤ fuel) :
    readExts completeN fuel st (writeExtChain es ++ rest) =
      some (es.foldl applyExt st, rest) :=
  readExts_chain completeN es hne hv st rest fuel hf

/-- Witness for C7: a chain with descending ids (Target before QoS) and a
duplicated Target decodes successfully, keeping the last Target value. -/
theorem ext_chain_permissive_witness :
    readExts true 3 ExtState.init
        (writeExtChain [ExtWrite.target .all, ExtWrite.qos 5, ExtWrite.target .allComplete]
          ++ [9])
      = some (⟨5, none, DestinationType.dflt, .allComplete⟩, [9]) := by
  have h := ext_chain_permissive true
    [ExtWrite.target .all, ExtWrite.qos 5, ExtWrite.target .allComplete]
    (by decide) (by decide) ExtState.init [9] 3 (by decide)
  exact h.trans (by decide)

/-! ## Unknown-extension insertion (forward compatibility) -/

/-- Insert an element at position `i` of a list (clamped to the end). -/
def insertAt (i : Nat) (a : α) (l : List α) : List α := l.take i ++ a :: l.drop i

/-- The unit carries a discriminator outside the four known ids. -/
def ExtWrite.isUnknown : ExtWrite → Bool
  | .unknownUnit _ => true
  | .unknownZ64 _ _ => true
  | .unknownZBuf _ _ => true
  | .unknownReserved _ => true
  | _ => false

theorem applyExt_unknown (u : ExtWrite) (hu : u.isUnknown = true) (st : ExtState) :
    applyExt st u = st := by
  cases u <;> simp [ExtWrite.isUnknown] at hu ⊢ <;> rfl

theorem foldl_applyExt_insertAt (u : ExtWrite) (hu : u.isUnknown = true) :
    ∀ (es : List ExtWrite) (i : Nat) (st : ExtState),
      (insertAt i u es).foldl applyExt st = es.foldl applyExt st := by
  intro es
  induction es with
  | nil =>
    intro i st
    simp [insertAt, applyExt_unknown u hu]
  | cons e es ih =>
    intro i st
    cases i with
    | zero => simp [insertAt, applyExt_unknown u hu]
    | succ j =>
      simp only [insertAt, List.take_succ_cons, List.drop_succ_cons, List.cons_append,
        List.foldl_cons]
      exact ih j (applyExt st e)

theorem mem_insertAt (a b : α) (i : Nat) (l : List α) (h : b ∈ insertAt i a l) :
    b = a ∨ b ∈ l := by
  simp only [insertAt, List.mem_append, List.mem_cons] at h
  rcases h with h | h | h
  · exact Or.inr (List.take_subset i l h)
  · exact Or.inl h
  · exact Or.inr (List.drop_subset i l h)

/-- The reserved-ENC discriminators: ENC bits `0b11`. -/
abbrev reservedEid (e : Nat) : Prop := 96 ≤ e ∧ e < 128

/-- A chain holding a reserved-ENC unit anywhere behind well-formed units
fails to decode: the skip helper rejects ENC `0b11`. -/
theorem readExts_reserved (completeN : Bool) :
    ∀ (es1 : List ExtWrite), (∀ x ∈ es1, x.valid completeN = true) →
      ∀ (e : Nat), reservedEid e → ∀ (es2 : List ExtWrite) (st : ExtState)
        (rest : Bytes) (fuel : Nat), es1.length + 1 ≤ fuel →
      readExts completeN fuel st
        (writeExtChain (es1 ++ ExtWrite.unknownReserved e :: es2) ++ rest) = none := by
  intro es1
  induction es1 with
  | nil =>
    intro _ e he es2 st rest fuel hf
    obtain ⟨f, rfl⟩ : ∃ f, fuel = f + 1 := ⟨fuel - 1, by omega⟩
    obtain ⟨he1, he2⟩ := he
    have h128 : e < 128 := he2
    have henc : encOf e = 3 := by simp only [encOf]; omega
    have h1 : ¬ e = extid.QoS := by simp only [extid.QoS]; omega
    have h2 : ¬ e = extid.Timestamp := by simp only [extid.Timestamp]; omega
    have h3 : ¬ e = extid.Destination := by simp only [extid.Destination]; omega
    have h4 : ¬ e = extid.Target := by simp only [extid.Target]; omega
    rw [List.nil_append, writeExtChain]
    simp [writeExtOne, readExts, eidOf_extHeader e h128, encOf_extHeader e h128,
      h1, h2, h3, h4, henc]
  | cons x es1 ih =>
    intro hv e he es2 st rest fuel hf
    obtain ⟨f, rfl⟩ : ∃ f, fuel = f + 1 := ⟨fuel - 1, by simp at hf; omega⟩
    have hcons : (x :: es1) ++ ExtWrite.unknownReserved e :: es2
        = x :: (es1 ++ ExtWrite.unknownReserved e :: es2) := by simp
    rw [hcons, writeExtChain, List.append_assoc,
      readExts_step completeN x (hv x (by simp)) _ st _ f]
    have hne : (es1 ++ ExtWrite.unknownReserved e :: es2).isEmpty = false := by
      cases es1 <;> simp
    rw [hne]
    simp only [Bool.not_false, if_true]
    exact ih (fun y hy => hv y (by simp [hy])) e he es2 (applyExt st x) rest f
      (by simp at hf ⊢; omega)

/-- Request-level failure on a reserved-ENC extension unit anywhere in
the chain. -/
theorem readRequest_chainWrite_reserved (completeN : Bool) (x : Request)
    (hx : x.valid = true) (es1 es2 : List ExtWrite)
    (hv1 : ∀ y ∈ es1, y.valid completeN = true) (e : Nat) (he : reservedEid e) :
    readRequest completeN
      (writeRequestChain x (es1 ++ ExtWrite.unknownReserved e :: es2)) = none := by
  simp only [Request.valid, Bool.and_eq_true, decide_eq_true_eq, and_assoc] at hx
  obtain ⟨hid, hscope, hsfxlen, hplen, hqos, htv, hmore⟩ := hx
  obtain ⟨hmid, hbit7, hbit6, hbit5⟩ := chainHeader_bits x (es1 ++ ExtWrite.unknownReserved e :: es2)
  have hne : es1 ++ ExtWrite.unknownReserved e :: es2 ≠ [] := by simp
  have hz : hasBit (chainHeader x (es1 ++ ExtWrite.unknownReserved e :: es2)) 7 = true := by
    rw [hbit7]; simp [hne]
  have hfuel : es1.length + 1 ≤
      (writeExtChain (es1 ++ ExtWrite.unknownReserved e :: es2) ++ zbufWrite x.payload).length := by
    have h1 := writeExtChain_length (es1 ++ ExtWrite.unknownReserved e :: es2)
    have h2 := zbufWrite_length_pos x.payload
    simp only [List.length_append, List.length_cons] at h1 ⊢
    omega
  rw [writeRequestChain, readRequest, readRequestFrom, if_neg (by simp [hmid])]
  simp only [List.append_assoc, varintDecode_encode x.id hid, hbit5,
    readWireExpr_write x.wire_expr hscope hsfxlen, hz, if_true,
    readExts_reserved completeN es1 hv1 e he es2 ExtState.init (zbufWrite x.payload) _ hfuel]

/-- C4: inserting an unknown extension unit — any discriminator outside
the four known ids, with ENC Unit, Z64 or ZBuf and a well-formed body —
at any position of a Request's extension chain (more bits adjusted, Z
forced on) does not change the value the decoder returns, and the
decoder consumes every byte of the unknown unit; a unit with the
reserved ENC instead makes decoding fail. -/
theorem unknown_ext_skipped (x : Request) (u : ExtWrite) (i : Nat)
    (hx : x.valid = true) (hvu : u.valid true = true) (hun : u.isUnknown = true) :
    readRequest true (writeRequestChain x (insertAt i u x.extList)) = some (x, [])
    ∧ ∀ (e : Nat) (j : Nat), reservedEid e →
        readRequest true
          (writeRequestChain x (insertAt j (ExtWrite.unknownReserved e) x.extList)) = none := by
  constructor
  · have hv : ∀ y ∈ insertAt i u x.extList, y.valid true = true := by
      intro y hy
      rcases mem_insertAt u y i x.extList hy with rfl | hy
      · exact hvu
      · exact extList_valid x hx y hy
    have h := readRequest_chainWrite true x (insertAt i u x.extList) hx hv []
    rw [List.append_nil] at h
    rw [h, foldl_applyExt_insertAt u hun, requestOfParts_extList]
  · intro e j he
    rw [show insertAt j (ExtWrite.unknownReserved e) x.extList
        = x.extList.take j ++ ExtWrite.unknownReserved e :: x.extList.drop j from rfl]
    exact readRequest_chainWrite_reserved true x hx _ _
      (fun y hy => extList_valid x hx y (List.take_subset j x.extList hy)) e he

/-- Witness for C4: a ZBuf unknown unit (discriminator 95) inserted at
position 1 of the sample Request's chain is skipped; a reserved unit
(discriminator 100) makes decoding fail. -/
theorem unknown_ext_skipped_witness :
    readRequest true
        (writeRequestChain sampleRequest
          (insertAt 1 (ExtWrite.unknownZBuf 95 [1, 2, 3, 4]) sampleRequest.extList))
      = some (sampleRequest, [])
    ∧ readRequest true
        (writeRequestChain sampleRequest
          (insertAt 0 (ExtWrite.unknownReserved 100) sampleRequest.extList)) = none := by
  have h := unknown_ext_skipped sampleRequest (ExtWrite.unknownZBuf 95 [1, 2, 3, 4]) 1
    (by decide) (by decide) (by decide)
  exact ⟨h.1, h.2 100 0 (by decide)⟩

/-! ## The unicast receive pipeline (rx.rs)

The per-conduit receive state (sequence tracker and defragmenter) is
modelled from the spec §4.E; the pipeline functions `trigger_callback`,
`handle_close`, `handle_frame` and `receive_message` are embedded from
rx.rs.  Application messages are an abstract type `Msg` with an external
parser `parse`; the observable effects — messages delivered to the
callback, link tasks stopped, teardown tasks spawned — are recorded in
logs inside the transport state.  The `stats` and `shared-memory`
features are disabled. -/

/-- Modelled from the spec §4.E: the sequence tracker holds the current
sequence number and a resolution of `res` bits. -/
structure SeqTracker where
  res : Nat
  sn : Nat
deriving DecidableEq, Repr

def SeqTracker.get (t : SeqTracker) : Nat := t.sn

/-- Forward distance from the current value to `next`, modulo `2^res`. -/
def SeqTracker.dist (t : SeqTracker) (next : Nat) : Nat :=
  (next + 2 ^ t.res - t.sn % 2 ^ t.res) % 2 ^ t.res

/-- Modelled from the spec: `precedes next` is true iff `next` lies among
the `2^(res-1) - 1` values immediately following the current one under
modulo-`2^res` arithmetic; it fails when `next` is outside the
resolution. -/
def SeqTracker.precedes (t : SeqTracker) (next : Nat) : Option Bool :=
  if next < 2 ^ t.res then
    some (decide (1 ≤ t.dist next ∧ t.dist next ≤ 2 ^ (t.res - 1) - 1))
  else none

/-- Modelled from the spec: store the new sequence number; fails outside
the resolution. -/
def SeqTracker.set (t : SeqTracker) (next : Nat) : Option SeqTracker :=
  if next < 2 ^ t.res then some { t with sn := next } else none

/-- `let _ = guard.sn.set(sn)` of rx.rs line 142: the result is ignored,
so a failing `set` keeps the old tracker. -/
def SeqTracker.setOrKeep (t : SeqTracker) (next : Nat) : SeqTracker :=
  match t.set next with
  | some t2 => t2
  | none => t

/-- Modelled from the spec §4.E: the defragmenter buffers fragment
payloads in push order together with the expected next sequence
number. -/
structure Defragmenter where
  nextSn : Nat
  frags : List Bytes
deriving DecidableEq, Repr

def Defragmenter.is_empty (d : Defragmenter) : Bool := d.frags.isEmpty

def Defragmenter.clear (d : Defragmenter) : Defragmenter := { d with frags := [] }

/-- Modelled from the spec: set the expected start; only legal when
empty. -/
def Defragmenter.sync (d : Defragmenter) (sn : Nat) : Defragmenter :=
  if d.is_empty then { d with nextSn := sn } else d

/-- Modelled from the spec: append a fragment; a non-contiguous sequence
number is an error and clears the buffer. -/
def Defragmenter.push (d : Defragmenter) (sn : Nat) (b : Bytes) : Defragmenter × Bool :=
  if sn = d.nextSn then ({ nextSn := sn + 1, frags := d.frags ++ [b] }, true)
  else (d.clear, false)

/-- Modelled from the spec: parse the concatenation of the buffered
fragment payloads as one application message; `None` when parsing fails;
clears the buffer on success. -/
def Defragmenter.defragment (parse : Bytes → Option Msg) (d : Defragmenter) :
    Option Msg × Defragmenter :=
  match parse d.frags.flatten with
  | some m => (some m, d.clear)
  | none => (none, d)

/-- One reliability lane of a conduit: sequence tracker plus
defragmenter (`TransportChannelRx`). -/
structure TransportChannelRx where
  sn : SeqTracker
  defrag : Defragmenter
deriving DecidableEq, Repr

/-- A conduit: a reliable and a best-effort lane. -/
structure Conduit where
  reliable : TransportChannelRx
  best_effort : TransportChannelRx
deriving DecidableEq, Repr

inductive Reliability where
  | reliable
  | bestEffort
deriving DecidableEq, Repr

/-- Modelled from the spec: eight priority classes with a distinguished
default class (the class of the single conduit used when QoS is
disabled). -/
def Priority.dflt : Nat := 5

inductive FramePayload (Msg : Type) where
  | fragment (buffer : Bytes) (is_final : Bool)
  | messages (ms : List Msg)
deriving DecidableEq, Repr

/-- A teardown task spawned by `handle_close`. -/
inductive Teardown where
  | delLink
  | delete
deriving DecidableEq, Repr

/-- The body of a transport message as dispatched by `receive_message`;
`other` stands for every body the receive path only logs. -/
inductive TransportBody (Msg : Type) where
  | frame (priority : Nat) (reliability : Reliability) (sn : Nat)
      (payload : FramePayload Msg)
  | close (pid : Option Nat) (reason : Nat) (link_only : Bool)
  | keepAlive
  | other
deriving DecidableEq, Repr

/-- The observable state of `TransportUnicastInner` on the receive path:
peer id, QoS mode, the conduit vector, whether the callback slot is
filled, and logs of the delivered messages, the stopped link tasks and
the spawned teardown tasks. -/
structure TransportUnicastInner (Msg : Type) where
  pid : Nat
  is_qos : Bool
  conduit_rx : List Conduit
  cbSet : Bool
  delivered : List Msg
  rxStopped : Bool
  txStopped : Bool
  spawned : List Teardown
deriving DecidableEq, Repr

/-- `trigger_callback` (rx.rs lines 31-76): read the callback slot; with
a callback installed hand the message over (the handler result is
modelled as success and the delivery recorded in the log); with no
callback installed drop the message with a debug log and return `Ok`. -/
def trigger_callback (st : TransportUnicastInner Msg) (msg : Msg) :
    TransportUnicastInner Msg × Bool :=
  if st.cbSet then ({ st with delivered := st.delivered ++ [msg] }, true)
  else (st, true)

/-- `handle_close` (rx.rs lines 78-116): a supplied peer id different
from the local one is a stale close — log and return `Ok` unchanged;
otherwise stop the rx and tx tasks and spawn the teardown task
(`del_link` when `link_only`, else full `delete`). -/
def handle_close (st : TransportUnicastInner Msg) (pid : Option Nat) (reason : Nat)
    (link_only : Bool) : TransportUnicastInner Msg × Bool :=
  match pid with
  | some p =>
    if p ≠ st.pid then (st, true)
    else
      ({ st with rxStopped := true, txStopped := true,
                 spawned := st.spawned
                   ++ [if link_only then Teardown.delLink else Teardown.delete] }, true)
  | none =>
      ({ st with rxStopped := true, txStopped := true,
                 spawned := st.spawned
                   ++ [if link_only then Teardown.delLink else Teardown.delete] }, true)

/-- The `for msg in messages` loop of rx.rs lines 159-164: deliver each
message in order, stopping at the first failing delivery. -/
def deliverAll (parse : Bytes → Option Msg) :
    List Msg → TransportUnicastInner Msg → TransportUnicastInner Msg × Bool
  | [], st => (st, true)
  | m :: ms, st =>
    match trigger_callback st m with
    | (st2, true) => deliverAll parse ms st2
    | (st2, false) => (st2, false)

/-- `handle_frame` (rx.rs lines 118-166). -/
def handle_frame (parse : Bytes → Option Msg) (st : TransportUnicastInner Msg)
    (sn : Nat) (payload : FramePayload Msg) (lane : TransportChannelRx) :
    TransportUnicastInner Msg × TransportChannelRx × Bool :=
  match lane.sn.precedes sn with
  | none => (st, lane, false)
  | some false =>
    (st, if lane.defrag.is_empty then lane
         else { lane with defrag := lane.defrag.clear }, true)
  | some true =>
    let lane1 := { lane with sn := lane.sn.setOrKeep sn }
    match payload with
    | .fragment buffer is_final =>
      let lane2 := if lane1.defrag.is_empty
        then { lane1 with defrag := lane1.defrag.sync sn } else lane1
      match lane2.defrag.push sn buffer with
      | (d, false) => (st, { lane2 with defrag := d }, false)
      | (d, true) =>
        if is_final then
          match Defragmenter.defragment parse d with
          | (some msg, d2) =>
            let r := trigger_callback st msg
            (r.1, { lane2 with defrag := d2 }, r.2)
          | (none, d2) => (st, { lane2 with defrag := d2 }, false)
        else (st, { lane2 with defrag := d }, true)
    | .messages ms =>
      let r := deliverAll parse ms st
      (r.1, lane1, r.2)

/-- The empty conduit: default of a list lookup that is always in range
under the stated hypotheses. -/
def Conduit.empty : Conduit :=
  ⟨⟨⟨0, 0⟩, ⟨0, []⟩⟩, ⟨⟨0, 0⟩, ⟨0, []⟩⟩⟩

/-- Dispatch a frame to the conduit at index `i` (rx.rs lines 189-194):
take the lane for the frame reliability, run `handle_frame` under the
lane lock, and store the updated lane back. -/
def frameOnConduit (parse : Bytes → Option Msg) (st : TransportUnicastInner Msg)
    (i : Nat) (reliability : Reliability) (sn : Nat) (payload : FramePayload Msg) :
    TransportUnicastInner Msg × Bool :=
  let c := st.conduit_rx.getD i Conduit.empty
  match reliability with
  | .reliable =>
    let r := handle_frame parse st sn payload c.reliable
    ({ r.1 with conduit_rx := r.1.conduit_rx.set i { c with reliable := r.2.1 } }, r.2.2)
  | .bestEffort =>
    let r := handle_frame parse st sn payload c.best_effort
    ({ r.1 with conduit_rx := r.1.conduit_rx.set i { c with best_effort := r.2.1 } }, r.2.2)

/-- `receive_message` (rx.rs lines 168-211): a Frame selects its conduit
(by priority under QoS, else the single conduit after checking the
priority is the default one — anything else is the unknown-conduit
error) and runs `handle_frame`; Close dispatches to `handle_close`;
KeepAlive and all unhandled bodies succeed with no effect. -/
def receive_message (parse : Bytes → Option Msg) (st : TransportUnicastInner Msg)
    (body : TransportBody Msg) : TransportUnicastInner Msg × Bool :=
  match body with
  | .frame priority reliability sn payload =>
    if st.is_qos then frameOnConduit parse st priority reliability sn payload
    else if priority = Priority.dflt then frameOnConduit parse st 0 reliability sn payload
    else (st, false)
  | .close pid reason link_only => handle_close st pid reason link_only
  | .keepAlive => (st, true)
  | .other => (st, true)

/-- Feed a list of `(sn, buffer, is_final)` fragment frames through
`handle_frame` on one lane, stopping at the first error, as the receive
loop does. -/
def runFrames (parse : Bytes → Option Msg) :
    List (Nat × Bytes × Bool) → TransportUnicastInner Msg → TransportChannelRx →
    TransportUnicastInner Msg × TransportChannelRx × Bool
  | [], st, lane => (st, lane, true)
  | (sn, buf, fin) :: rest, st, lane =>
    match handle_frame parse st sn (.fragment buf fin) lane with
    | (st2, lane2, true) => runFrames parse rest st2 lane2
    | (st2, lane2, false) => (st2, lane2, false)

/-- The fragment run `s, s+1, …` over the buffers `bs`, with `is_final`
exactly on the last fragment. -/
def fragmentRun (s : Nat) : List Bytes → List (Nat × Bytes × Bool)
  | [] => []
  | [b] => [(s, b, true)]
  | b :: b2 :: bs => (s, b, false) :: fragmentRun (s + 1) (b2 :: bs)

/-! ## Facts about the receive pipeline -/

theorem trigger_callback_ok {Msg : Type} (st : TransportUnicastInner Msg) (m : Msg) :
    (trigger_callback st m).2 = true := by
  by_cases h : st.cbSet = true <;> simp [trigger_callback, h]

theorem deliverAll_ok {Msg : Type} (parse : Bytes → Option Msg) :
    ∀ (ms : List Msg) (st : TransportUnicastInner Msg), (deliverAll parse ms st).2 = true := by
  intro ms
  induction ms with
  | nil => intro st; rfl
  | cons m ms ih =>
    intro st
    rw [deliverAll]
    rcases hr : trigger_callback st m with ⟨st2, ok⟩
    have hok := trigger_callback_ok st m
    rw [hr] at hok
    subst hok
    exact ih st2

theorem deliverAll_nocb {Msg : Type} (parse : Bytes → Option Msg) (ms : List Msg)
    (st : TransportUnicastInner Msg) (h : st.cbSet = false) :
    deliverAll parse ms st = (st, true) := by
  induction ms with
  | nil => rfl
  | cons m ms ih =>
    rw [deliverAll, show trigger_callback st m = (st, true) from by simp [trigger_callback, h]]
    exact ih

/-- The lane update and result of `handle_frame` do not depend on the
transport state (the state only feeds the callback, whose handling
result is success). -/
theorem handle_frame_snd_congr {Msg : Type} (parse : Bytes → Option Msg) (sn : Nat)
    (payload : FramePayload Msg) (lane : TransportChannelRx)
    (st st2 : TransportUnicastInner Msg) :
    (handle_frame parse st sn payload lane).2 = (handle_frame parse st2 sn payload lane).2 := by
  rcases hp : lane.sn.precedes sn with _ | b
  · simp [handle_frame, hp]
  · cases b
    · simp [handle_frame, hp]
    · cases payload with
      | messages ms => simp [handle_frame, hp, deliverAll_ok]
      | fragment buffer is_final =>
        simp only [handle_frame, hp]
        split
        · rfl
        · split
          · split <;> simp [trigger_callback_ok]
          · rfl

/-- With no callback installed, `handle_frame` leaves the transport
state unchanged (in particular nothing is delivered and the drop is not
an error). -/
theorem handle_frame_fst_nocb {Msg : Type} (parse : Bytes → Option Msg)
    (st : TransportUnicastInner Msg) (sn : Nat) (payload : FramePayload Msg)
    (lane : TransportChannelRx) (h : st.cbSet = false) :
    (handle_frame parse st sn payload lane).1 = st := by
  rcases hp : lane.sn.precedes sn with _ | b
  · simp [handle_frame, hp]
  · cases b
    · simp [handle_frame, hp]
    · cases payload with
      | messages ms => simp [handle_frame, hp, deliverAll_nocb parse _ _ h]
      | fragment buffer is_final =>
        simp only [handle_frame, hp]
        split
        · rfl
        · split
          · split
            · simp [trigger_callback, h]
            · rfl
          · rfl

/-! ## Claim theorems for the receive pipeline -/

/-- C3: a frame whose sequence number does not precede the lane tracker
is dropped silently: `handle_frame` returns `Ok`, the callback is not
invoked (the transport state is unchanged), the tracker does not
advance, and the defragmenter is left empty (cleared if it held
fragments). -/
theorem sequence_gap_dropped {Msg : Type} (parse : Bytes → Option Msg)
    (st : TransportUnicastInner Msg) (sn : Nat) (payload : FramePayload Msg)
    (lane : TransportChannelRx) (h : lane.sn.precedes sn = some false) :
    ∃ lane2, handle_frame parse st sn payload lane = (st, lane2, true)
      ∧ lane2.sn = lane.sn ∧ lane2.defrag.is_empty = true := by
  simp only [handle_frame, h]
  refine ⟨_, rfl, ?_, ?_⟩ <;> by_cases hd : lane.defrag.frags = [] <;>
    simp [hd, Defragmenter.is_empty, Defragmenter.clear]

/-- A transport state used by concrete instances below. -/
def sampleTransport : TransportUnicastInner Nat :=
  { pid := 1, is_qos := false, conduit_rx := [Conduit.empty], cbSet := true,
    delivered := [], rxStopped := false, txStopped := false, spawned := [] }

/-- Witness for C3: a gap (tracker at 0, frame sn 9 outside the window
of resolution 4) on a lane with one buffered fragment. -/
theorem sequence_gap_dropped_witness :
    ∃ lane2, handle_frame (fun bs => bs.head?) sampleTransport 9
        (FramePayload.messages [42]) ⟨⟨4, 0⟩, ⟨5, [[1]]⟩⟩ = (sampleTransport, lane2, true)
      ∧ lane2.sn = (⟨4, 0⟩ : SeqTracker) ∧ lane2.defrag.is_empty = true :=
  sequence_gap_dropped (fun bs => bs.head?) sampleTransport 9
    (FramePayload.messages [42]) ⟨⟨4, 0⟩, ⟨5, [[1]]⟩⟩ (by decide)

/-- C8: a Close carrying a peer id different from the transport local
peer id is ignored: `handle_close` returns `Ok`, stops no task, spawns
no teardown task, and leaves the transport state unchanged. -/
theorem stale_close_ignored {Msg : Type} (st : TransportUnicastInner Msg)
    (p reason : Nat) (link_only : Bool) (h : p ≠ st.pid) :
    handle_close st (some p) reason link_only = (st, true) := by
  simp [handle_close, h]

/-- Witness for C8: peer id 2 against local peer id 1. -/
theorem stale_close_ignored_witness :
    handle_close sampleTransport (some 2) 0 false = (sampleTransport, true) :=
  stale_close_ignored sampleTransport 2 0 false (by decide)

/-- C10: with no callback installed, `trigger_callback` returns `Ok` and
drops the message; consequently `handle_frame` leaves the transport
state unchanged (nothing delivered, no error surfaced for the missing
callback) while its lane update — sequence advance and defragmenter
emptying — and its result are exactly those of a run with a callback
installed. -/
theorem missing_callback_silent {Msg : Type} (parse : Bytes → Option Msg)
    (st : TransportUnicastInner Msg) (msg : Msg) (sn : Nat)
    (payload : FramePayload Msg) (lane : TransportChannelRx) (h : st.cbSet = false) :
    trigger_callback st msg = (st, true)
    ∧ (handle_frame parse st sn payload lane).1 = st
    ∧ (handle_frame parse st sn payload lane).2 =
        (handle_frame parse { st with cbSet := true } sn payload lane).2 :=
  ⟨by simp [trigger_callback, h],
   handle_frame_fst_nocb parse st sn payload lane h,
   handle_frame_snd_congr parse sn payload lane st { st with cbSet := true }⟩

/-! ## Fragment-run reassembly -/

theorem setOrKeep_lt (t : SeqTracker) (next : Nat) (h : next < 2 ^ t.res) :
    t.setOrKeep next = ⟨t.res, next⟩ := by
  simp [SeqTracker.setOrKeep, SeqTracker.set, h]

/-- After advancing to `s`, the immediate successor `s + 1` precedes:
its forward distance is 1, inside the window as soon as the resolution
is at least two bits. -/
theorem precedes_succ (r s : Nat) (hr : 2 ≤ r) (hs : s + 1 < 2 ^ r) :
    SeqTracker.precedes ⟨r, s⟩ (s + 1) = some true := by
  have hsr : s < 2 ^ r := by omega
  have hmod : s % 2 ^ r = s := Nat.mod_eq_of_lt hsr
  have hnum : s + 1 + 2 ^ r - s = 2 ^ r + 1 := by omega
  have hone : 1 < 2 ^ r := by
    calc 1 < 2 ^ 2 := by norm_num
    _ ≤ 2 ^ r := Nat.pow_le_pow_right (by norm_num) hr
  have hdist : SeqTracker.dist ⟨r, s⟩ (s + 1) = 1 := by
    simp only [SeqTracker.dist, hmod, hnum, Nat.add_mod_left]
    exact Nat.mod_eq_of_lt hone
  have hhalf : 2 ≤ 2 ^ (r - 1) := by
    calc 2 = 2 ^ 1 := by norm_num
    _ ≤ 2 ^ (r - 1) := Nat.pow_le_pow_right (by norm_num) (by omega)
  simp only [SeqTracker.precedes, if_pos hs, hdist, Option.some.injEq,
    decide_eq_true_eq]
  omega

/-- One accepted fragment: the tracker advances to `sn`, the buffer is
appended (after a `sync` when empty), and a final fragment triggers
defragmentation of the accumulated buffers. -/
theorem handle_frame_fragment_step {Msg : Type} (parse : Bytes → Option Msg)
    (st : TransportUnicastInner Msg) (sn : Nat) (b : Bytes) (fin : Bool)
    (lane : TransportChannelRx)
    (hpre : lane.sn.precedes sn = some true)
    (hset : sn < 2 ^ lane.sn.res)
    (hnext : lane.defrag.frags = [] ∨ lane.defrag.nextSn = sn) :
    handle_frame parse st sn (.fragment b fin) lane =
      if fin then
        match parse (lane.defrag.frags ++ [b]).flatten with
        | some msg =>
          ((trigger_callback st msg).1,
            ⟨⟨lane.sn.res, sn⟩, ⟨sn + 1, []⟩⟩, (trigger_callback st msg).2)
        | none => (st, ⟨⟨lane.sn.res, sn⟩, ⟨sn + 1, lane.defrag.frags ++ [b]⟩⟩, false)
      else (st, ⟨⟨lane.sn.res, sn⟩, ⟨sn + 1, lane.defrag.frags ++ [b]⟩⟩, true) := by
  simp only [handle_frame, hpre, setOrKeep_lt lane.sn sn hset]
  rcases hnext with hfr | hns
  · simp only [Defragmenter.is_empty, hfr, List.isEmpty_nil, if_true,
      Defragmenter.sync, Defragmenter.push, Defragmenter.defragment, Defragmenter.clear,
      if_pos rfl, List.nil_append]
    cases fin
    · simp [Defragmenter.defragment, Defragmenter.clear, hfr]
    · simp [Defragmenter.defragment, Defragmenter.clear, hfr]
      rcases hpb : parse b with _ | m <;> simp [hpb]
  · by_cases hfr : lane.defrag.frags = []
    · simp only [Defragmenter.is_empty, hfr, List.isEmpty_nil, if_true,
        Defragmenter.sync, Defragmenter.push, Defragmenter.defragment, Defragmenter.clear]
      cases fin
      · simp [Defragmenter.defragment, Defragmenter.clear, hfr]
      · simp [Defragmenter.defragment, Defragmenter.clear, hfr]
        rcases hpb : parse b with _ | m <;> simp [hpb]
    · have hne : lane.defrag.is_empty = false := by
        simp [Defragmenter.is_empty, List.isEmpty_iff, hfr]
      simp only [hne, Bool.false_eq_true, if_false, Defragmenter.push, hns, if_pos rfl]
      cases fin
      · simp [Defragmenter.defragment, Defragmenter.clear]
      · simp [Defragmenter.defragment, Defragmenter.clear]
        rcases hpb : parse (lane.defrag.frags.flatten ++ b) with _ | m <;> simp [hpb]

/-- Running the fragment frames `s, s+1, …` over `bs` (final on the
last) against a lane already holding the contiguous fragments
`lane.defrag.frags`: exactly one delivery of the reparsed concatenation,
or an error and no delivery when reparsing fails. -/
theorem runFrames_fragmentRun_aux {Msg : Type} (parse : Bytes → Option Msg) :
    ∀ (bs : List Bytes) (st : TransportUnicastInner Msg) (lane : TransportChannelRx)
      (s : Nat), bs ≠ [] →
      st.cbSet = true →
      2 ≤ lane.sn.res →
      lane.sn.precedes s = some true →
      s + bs.length ≤ 2 ^ lane.sn.res →
      (lane.defrag.frags = [] ∨ lane.defrag.nextSn = s) →
      (∀ msg, parse (lane.defrag.frags ++ bs).flatten = some msg →
        ∃ lane2, runFrames parse (fragmentRun s bs) st lane =
            ({ st with delivered := st.delivered ++ [msg] }, lane2, true)
          ∧ lane2.defrag.is_empty = true)
      ∧ (parse (lane.defrag.frags ++ bs).flatten = none →
        ∃ lane2, runFrames parse (fragmentRun s bs) st lane = (st, lane2, false)) := by
  intro bs
  induction bs with
  | nil => intro st lane s hbs; exact absurd rfl hbs
  | cons b bs2 ih =>
    intro st lane s _ hcb hres hpre hlt hnext
    cases bs2 with
    | nil =>
      have hset : s < 2 ^ lane.sn.res := by
        simp only [List.length_cons, List.length_nil] at hlt
        omega
      have hstep := handle_frame_fragment_step parse st s b true lane hpre hset hnext
      constructor
      · intro msg hmsg
        refine ⟨⟨⟨lane.sn.res, s⟩, ⟨s + 1, []⟩⟩, ?_, rfl⟩
        rw [show fragmentRun s [b] = [(s, b, true)] from rfl, runFrames, hstep]
        simp only [if_true, hmsg]
        rw [show trigger_callback st msg
            = ({ st with delivered := st.delivered ++ [msg] }, true) from by
          simp [trigger_callback, hcb]]
        rfl
      · intro hmsg
        refine ⟨⟨⟨lane.sn.res, s⟩, ⟨s + 1, lane.defrag.frags ++ [b]⟩⟩, ?_⟩
        rw [show fragmentRun s [b] = [(s, b, true)] from rfl, runFrames, hstep]
        simp only [if_true, hmsg]
    | cons b2 bs3 =>
      have hset : s < 2 ^ lane.sn.res := by
        simp only [List.length_cons] at hlt
        omega
      have hstep := handle_frame_fragment_step parse st s b false lane hpre hset hnext
      have hrw : runFrames parse (fragmentRun s (b :: b2 :: bs3)) st lane
          = runFrames parse (fragmentRun (s + 1) (b2 :: bs3)) st
              ⟨⟨lane.sn.res, s⟩, ⟨s + 1, lane.defrag.frags ++ [b]⟩⟩ := by
        rw [show fragmentRun s (b :: b2 :: bs3)
            = (s, b, false) :: fragmentRun (s + 1) (b2 :: bs3) from rfl, runFrames, hstep]
        rfl
      have hnext2 : (⟨⟨lane.sn.res, s⟩, ⟨s + 1, lane.defrag.frags ++ [b]⟩⟩
          : TransportChannelRx).defrag.nextSn = s + 1 := rfl
      have hih := ih st ⟨⟨lane.sn.res, s⟩, ⟨s + 1, lane.defrag.frags ++ [b]⟩⟩ (s + 1)
        (by simp) hcb hres
        (precedes_succ lane.sn.res s hres (by simp only [List.length_cons] at hlt; omega))
        (by simp only [List.length_cons] at hlt ⊢; omega)
        (Or.inr hnext2)
      rw [show (lane.defrag.frags ++ [b]) ++ (b2 :: bs3)
          = lane.defrag.frags ++ (b :: b2 :: bs3) from by simp] at hih
      exact ⟨fun msg hmsg => by rw [hrw]; exact hih.1 msg hmsg,
             fun hmsg => by rw [hrw]; exact hih.2 hmsg⟩

/-- C2: a run of Frame messages carrying fragments with consecutive
sequence numbers `s, s+1, …` on one lane, `is_final` only on the last,
starting from an accepted sequence number and an empty defragmenter,
invokes the user callback exactly once, with the application message
parsed from the concatenation of the fragment buffers in push order (and
leaves the defragmenter empty); when the concatenation does not parse,
`handle_frame` returns an error instead of invoking the callback. -/
theorem fragment_run_delivery {Msg : Type} (parse : Bytes → Option Msg)
    (st : TransportUnicastInner Msg) (lane : TransportChannelRx) (s : Nat)
    (bs : List Bytes) (hbs : bs ≠ [])
    (hcb : st.cbSet = true)
    (hres : 2 ≤ lane.sn.res)
    (hpre : lane.sn.precedes s = some true)
    (hlt : s + bs.length ≤ 2 ^ lane.sn.res)
    (hempty : lane.defrag.is_empty = true) :
    (∀ msg, parse bs.flatten = some msg →
      ∃ lane2, runFrames parse (fragmentRun s bs) st lane =
          ({ st with delivered := st.delivered ++ [msg] }, lane2, true)
        ∧ lane2.defrag.is_empty = true)
    ∧ (parse bs.flatten = none →
      ∃ lane2, runFrames parse (fragmentRun s bs) st lane = (st, lane2, false)) := by
  have hfr : lane.defrag.frags = [] := by
    simpa [Defragmenter.is_empty, List.isEmpty_iff] using hempty
  have h := runFrames_fragmentRun_aux parse bs st lane s hbs hcb hres hpre hlt (Or.inl hfr)
  rw [hfr, List.nil_append] at h
  exact h

/-- Witness for C2: fragments `[10], [11], [12]` at sequence numbers
10, 11, 12 (resolution 4, tracker at 9) reassemble to `[10, 11, 12]`,
parsed by taking the head; exactly one delivery of 10. -/
theorem fragment_run_delivery_witness :
    ∃ lane2, runFrames (fun bs => bs.head?) (fragmentRun 10 [[10], [11], [12]])
        sampleTransport ⟨⟨4, 9⟩, ⟨0, []⟩⟩ =
        ({ sampleTransport with delivered := [10] }, lane2, true)
      ∧ lane2.defrag.is_empty = true := by
  have h := (fragment_run_delivery (fun bs => bs.head?) sampleTransport
    ⟨⟨4, 9⟩, ⟨0, []⟩⟩ 10 [[10], [11], [12]] (by decide) (by decide) (by decide)
    (by decide) (by decide) (by decide)).1 10 (by decide)
  simpa using h

/-- C9: with QoS disabled, a frame whose channel priority is not the
default priority is the unknown-conduit error, surfaced to the caller
with the state unchanged; with QoS enabled, the frame is dispatched to
the conduit indexed by the channel priority and no such error occurs
(the result is whatever `handle_frame` produces on that conduit's
lane). -/
theorem conduit_selection {Msg : Type} (parse : Bytes → Option Msg)
    (st : TransportUnicastInner Msg) (p : Nat) (rel : Reliability) (sn : Nat)
    (payload : FramePayload Msg) :
    (st.is_qos = false → p ≠ Priority.dflt →
      receive_message parse st (.frame p rel sn payload) = (st, false))
    ∧ (st.is_qos = true →
      receive_message parse st (.frame p rel sn payload)
        = frameOnConduit parse st p rel sn payload) := by
  constructor
  · intro hq hp
    simp [receive_message, hq, hp]
  · intro hq
    simp [receive_message, hq]

/-- A QoS-enabled transport with eight conduits. -/
def sampleTransportQoS : TransportUnicastInner Nat :=
  { pid := 1, is_qos := true, conduit_rx := List.replicate 8 Conduit.empty, cbSet := true,
    delivered := [], rxStopped := false, txStopped := false, spawned := [] }

/-- Witness for C9: priority 3 is rejected without QoS and dispatched to
conduit 3 with QoS. -/
theorem conduit_selection_witness :
    receive_message (fun bs => bs.head?) sampleTransport
        (TransportBody.frame 3 .reliable 0 (FramePayload.messages [7])) = (sampleTransport, false)
    ∧ receive_message (fun bs => bs.head?) sampleTransportQoS
        (TransportBody.frame 3 .reliable 0 (FramePayload.messages [7]))
      = frameOnConduit (fun bs => bs.head?) sampleTransportQoS 3 .reliable 0
          (FramePayload.messages [7]) :=
  ⟨(conduit_selection (fun bs => bs.head?) sampleTransport 3 .reliable 0
      (FramePayload.messages [7])).1 (by decide) (by decide),
   (conduit_selection (fun bs => bs.head?) sampleTransportQoS 3 .reliable 0
      (FramePayload.messages [7])).2 (by decide)⟩

/-- Witness for C10: with the callback slot empty, a final fragment is
reassembled, the state is unchanged, and the lane update equals the
one with a callback installed. -/
theorem missing_callback_silent_witness :
    trigger_callback { sampleTransport with cbSet := false } 7
        = ({ sampleTransport with cbSet := false }, true)
    ∧ (handle_frame (fun bs => bs.head?) { sampleTransport with cbSet := false } 10
        (FramePayload.fragment [3] true) ⟨⟨4, 9⟩, ⟨0, []⟩⟩).1
        = { sampleTransport with cbSet := false }
    ∧ (handle_frame (fun bs => bs.head?) { sampleTransport with cbSet := false } 10
        (FramePayload.fragment [3] true) ⟨⟨4, 9⟩, ⟨0, []⟩⟩).2
        = (handle_frame (fun bs => bs.head?)
            { { sampleTransport with cbSet := false } with cbSet := true } 10
            (FramePayload.fragment [3] true) ⟨⟨4, 9⟩, ⟨0, []⟩⟩).2 :=
  missing_callback_silent (fun bs => bs.head?) { sampleTransport with cbSet := false } 7 10
    (FramePayload.fragment [3] true) ⟨⟨4, 9⟩, ⟨0, []⟩⟩ (by decide)

end Zenoh
